import Mathlib

/-!
Verification of the grafana-autodoc repository: a shallow embedding of its
data model (pkg/parser/types.go), utility functions (pkg/utils/utils.go),
document pipeline (pkg/parser/parser.go, pkg/templates/templates.go) and
batch processor (cmd main, processFiles), together with theorems settling
the specification claims.
-/

namespace GrafanaAutodoc

/-! ## Data model, translated from pkg/parser/types.go -/

/-- `Link` from types.go: a dashboard link with type, title and URL. -/
structure Link where
  type : String
  title : String
  url : String
deriving DecidableEq, Repr

/-- `Datasource` from types.go: a Grafana datasource with type and uid. -/
structure Datasource where
  type : String
  uid : String
deriving DecidableEq, Repr

/-- `Target` from types.go: a query target with a PromQL expression string. -/
structure Target where
  expr : String
  datasource : Datasource
deriving DecidableEq, Repr

/-- `Panel` from types.go: a standard panel with metadata and query targets. -/
structure Panel where
  title : String
  description : String
  type : String
  targets : List Target
deriving DecidableEq, Repr

/-- `RowPanel` from types.go: a row panel that can contain nested panels. -/
structure RowPanel where
  title : String
  description : String
  type : String
  targets : List Target
  panels : List Panel
deriving DecidableEq, Repr

/-- `Dashboard` from types.go: title, description, links and row panels. -/
structure Dashboard where
  title : String
  description : String
  links : List Link
  panels : List RowPanel
deriving DecidableEq, Repr

/-- `RowPanel.GetPanel` from types.go: converts a RowPanel to a Panel by
copying title, description, type and targets (the `panels` field is dropped). -/
def RowPanel.GetPanel (r : RowPanel) : Panel where
  title := r.title
  description := r.description
  type := r.type
  targets := r.targets

/-- `Dashboard.GetPanels` from types.go, translated loop for loop: the first
`for` range over `d.Panels` appends each row's nested panels, the second
`for` range appends each row converted through `GetPanel`. -/
def Dashboard.GetPanels (d : Dashboard) : List Panel :=
  let panels := d.panels.foldl (fun acc rowPanel => acc ++ rowPanel.panels) []
  d.panels.foldl (fun acc panel => acc ++ [panel.GetPanel]) panels

/-- The flattening order the spec describes (interleaved per RowPanel:
children of a row immediately followed by that row's synthetic panel).
This definition follows the SPEC's words, for comparison with the
source-translated `Dashboard.GetPanels`. -/
def specInterleavedFlatten (d : Dashboard) : List Panel :=
  (d.panels.map (fun r => r.panels ++ [r.GetPanel])).flatten

/-! ## GetUniqueElements, translated from pkg/utils/utils.go -/

/-- The loop body of `GetUniqueElements`: `keys` is the set of already seen
elements (the Go `map[T]bool`), the list argument is the remaining input,
and the returned list is what the loop appends from here on. -/
def uniqueGo {α : Type _} [DecidableEq α] (keys : List α) : List α → List α
  | [] => []
  | a :: t => if a ∈ keys then uniqueGo keys t else a :: uniqueGo (a :: keys) t

/-- `GetUniqueElements` from utils.go: returns the unique elements of the
input in order of first occurrence. -/
def GetUniqueElements {α : Type _} [DecidableEq α] (s : List α) : List α :=
  uniqueGo [] s

/-! ### Lemmas about `GetUniqueElements` -/

theorem mem_uniqueGo {α : Type _} [DecidableEq α] (keys : List α) (l : List α) (x : α) :
    x ∈ uniqueGo keys l ↔ x ∈ l ∧ x ∉ keys := by
  induction l generalizing keys with
  | nil => simp [uniqueGo]
  | cons a t ih =>
    by_cases ha : a ∈ keys
    · rw [uniqueGo, if_pos ha, ih]
      constructor
      · rintro ⟨hx, hk⟩
        exact ⟨List.mem_cons_of_mem _ hx, hk⟩
      · rintro ⟨hx, hk⟩
        rcases List.mem_cons.mp hx with rfl | hx'
        · exact absurd ha hk
        · exact ⟨hx', hk⟩
    · rw [uniqueGo, if_neg ha]
      constructor
      · intro hx
        rcases List.mem_cons.mp hx with rfl | hx'
        · exact ⟨List.mem_cons_self x t, ha⟩
        · obtain ⟨hmem, hnk⟩ := (ih (a :: keys)).mp hx'
          exact ⟨List.mem_cons_of_mem _ hmem,
            fun h => hnk (List.mem_cons_of_mem _ h)⟩
      · rintro ⟨hx, hk⟩
        rcases List.mem_cons.mp hx with rfl | hx'
        · exact List.mem_cons_self x _
        · by_cases hxa : x = a
          · exact hxa ▸ List.mem_cons_self a _
          · refine List.mem_cons_of_mem _ ((ih (a :: keys)).mpr ⟨hx', ?_⟩)
            intro h
            rcases List.mem_cons.mp h with h' | h'
            · exact hxa h'
            · exact hk h'

theorem nodup_uniqueGo {α : Type _} [DecidableEq α] (keys : List α) (l : List α) :
    (uniqueGo keys l).Nodup := by
  induction l generalizing keys with
  | nil => simp [uniqueGo]
  | cons a t ih =>
    by_cases ha : a ∈ keys
    · simpa [uniqueGo, if_pos ha] using ih keys
    · rw [uniqueGo, if_neg ha]
      refine List.Nodup.cons ?_ (ih (a :: keys))
      intro hmem
      exact ((mem_uniqueGo _ _ _).mp hmem).2 (List.mem_cons_self a keys)

theorem sublist_uniqueGo {α : Type _} [DecidableEq α] (keys : List α) (l : List α) :
    (uniqueGo keys l).Sublist l := by
  induction l generalizing keys with
  | nil => simp [uniqueGo]
  | cons a t ih =>
    by_cases ha : a ∈ keys
    · simpa [uniqueGo, if_pos ha] using (ih keys).cons a
    · simpa [uniqueGo, if_neg ha] using (ih (a :: keys)).cons₂ a

theorem uniqueGo_of_nodup {α : Type _} [DecidableEq α] (keys : List α) (l : List α)
    (hl : l.Nodup) (hk : ∀ x ∈ l, x ∉ keys) : uniqueGo keys l = l := by
  induction l generalizing keys with
  | nil => simp [uniqueGo]
  | cons a t ih =>
    have ha : a ∉ keys := hk a (List.mem_cons_self a t)
    rw [uniqueGo, if_neg ha]
    congr 1
    refine ih (a :: keys) (List.Nodup.of_cons hl) ?_
    intro x hx hmem
    rcases List.mem_cons.mp hmem with rfl | hmem'
    · exact (List.nodup_cons.mp hl).1 hx
    · exact hk x (List.mem_cons_of_mem _ hx) hmem'

theorem uniqueGo_indexOf_lt_iff {α : Type _} [DecidableEq α] (keys l : List α)
    (x y : α) (hx : x ∈ l) (hy : y ∈ l) (hxk : x ∉ keys) (hyk : y ∉ keys)
    (hxy : x ≠ y) :
    (uniqueGo keys l).indexOf x < (uniqueGo keys l).indexOf y ↔
      l.indexOf x < l.indexOf y := by
  induction l generalizing keys with
  | nil => cases hx
  | cons a t ih =>
    by_cases ha : a ∈ keys
    · have hxa : a ≠ x := fun h => hxk (h ▸ ha)
      have hya : a ≠ y := fun h => hyk (h ▸ ha)
      have hxt : x ∈ t := by
        rcases List.mem_cons.mp hx with rfl | h
        · exact absurd rfl hxa
        · exact h
      have hyt : y ∈ t := by
        rcases List.mem_cons.mp hy with rfl | h
        · exact absurd rfl hya
        · exact h
      rw [uniqueGo, if_pos ha, List.indexOf_cons_ne t hxa,
        List.indexOf_cons_ne t hya, Nat.succ_lt_succ_iff]
      exact ih keys hxt hyt hxk hyk
    · rw [uniqueGo, if_neg ha]
      by_cases hxa : x = a
      · subst hxa
        simp only [List.indexOf_cons_self, List.indexOf_cons_ne _ hxy]
        simp [Nat.succ_pos]
      · by_cases hya : y = a
        · subst hya
          have hyx : y ≠ x := fun h => hxy h.symm
          simp only [List.indexOf_cons_self, List.indexOf_cons_ne _ hyx]
          simp
        · have hxt : x ∈ t := by
            rcases List.mem_cons.mp hx with rfl | h
            · exact absurd rfl hxa
            · exact h
          have hyt : y ∈ t := by
            rcases List.mem_cons.mp hy with rfl | h
            · exact absurd rfl hya
            · exact h
          have hxk' : x ∉ a :: keys := by
            intro h
            rcases List.mem_cons.mp h with h' | h'
            · exact hxa h'
            · exact hxk h'
          have hyk' : y ∉ a :: keys := by
            intro h
            rcases List.mem_cons.mp h with h' | h'
            · exact hya h'
            · exact hyk h'
          rw [List.indexOf_cons_ne _ (fun h => hxa h.symm),
            List.indexOf_cons_ne _ (fun h => hya h.symm),
            List.indexOf_cons_ne t (fun h => hxa h.symm),
            List.indexOf_cons_ne t (fun h => hya h.symm),
            Nat.succ_lt_succ_iff, Nat.succ_lt_succ_iff]
          exact ih (a :: keys) hxt hyt hxk' hyk'

/-! ## Claim C9 -/

/-- **C9.** `GetUniqueElements`, for every list over a type with decidable
equality, returns the sublist of distinct elements in order of first
occurrence: every element of the input appears exactly once in the output,
`x` precedes `y` in the output iff the first occurrence of `x` precedes the
first occurrence of `y` in the input, and the function is idempotent. -/
theorem claim_C9 {α : Type _} [DecidableEq α] :
    (∀ l : List α, (GetUniqueElements l).Sublist l) ∧
    (∀ l : List α, (GetUniqueElements l).Nodup) ∧
    (∀ (l : List α) (x : α), x ∈ GetUniqueElements l ↔ x ∈ l) ∧
    (∀ (l : List α) (x : α), x ∈ l → (GetUniqueElements l).count x = 1) ∧
    (∀ (l : List α) (x y : α), x ∈ l → y ∈ l → x ≠ y →
      ((GetUniqueElements l).indexOf x < (GetUniqueElements l).indexOf y ↔
        l.indexOf x < l.indexOf y)) ∧
    (∀ l : List α, GetUniqueElements (GetUniqueElements l) = GetUniqueElements l) := by
  refine ⟨fun l => sublist_uniqueGo [] l, fun l => nodup_uniqueGo [] l, ?_, ?_, ?_, ?_⟩
  · intro l x
    rw [GetUniqueElements, mem_uniqueGo]
    simp
  · intro l x hx
    refine List.count_eq_one_of_mem (nodup_uniqueGo [] l) ?_
    rw [GetUniqueElements, mem_uniqueGo]
    simp [hx]
  · intro l x y hx hy hxy
    exact uniqueGo_indexOf_lt_iff [] l x y hx hy (List.not_mem_nil x)
      (List.not_mem_nil y) hxy
  · intro l
    exact uniqueGo_of_nodup [] (GetUniqueElements l) (nodup_uniqueGo [] l)
      (fun x _ => List.not_mem_nil x)

/-- Witness for C9 at a concrete list. -/
theorem claim_C9_witness :
    (GetUniqueElements [1, 2, 3, 2, 1]).count 3 = 1 ∧
    ((GetUniqueElements [1, 2, 3, 2, 1]).indexOf 1 <
        (GetUniqueElements [1, 2, 3, 2, 1]).indexOf 3 ↔
      ([1, 2, 3, 2, 1] : List Nat).indexOf 1 < ([1, 2, 3, 2, 1] : List Nat).indexOf 3) ∧
    GetUniqueElements (GetUniqueElements [1, 2, 3, 2, 1]) =
      GetUniqueElements [1, 2, 3, 2, 1] :=
  ⟨(claim_C9 (α := Nat)).2.2.2.1 [1, 2, 3, 2, 1] 3 (by decide),
    (claim_C9 (α := Nat)).2.2.2.2.1 [1, 2, 3, 2, 1] 1 3 (by decide) (by decide)
      (by decide),
    (claim_C9 (α := Nat)).2.2.2.2.2 [1, 2, 3, 2, 1]⟩

/-! ## Claim C1 -/

theorem foldl_append_children (l : List RowPanel) (init : List Panel) :
    l.foldl (fun acc rowPanel => acc ++ rowPanel.panels) init =
      init ++ (l.map RowPanel.panels).flatten := by
  induction l generalizing init with
  | nil => simp
  | cons r rs ih => simp [List.foldl_cons, ih, List.append_assoc]

theorem foldl_append_synthetic (l : List RowPanel) (init : List Panel) :
    l.foldl (fun acc panel => acc ++ [panel.GetPanel]) init =
      init ++ l.map RowPanel.GetPanel := by
  induction l generalizing init with
  | nil => simp
  | cons r rs ih => simp [List.foldl_cons, ih, List.append_assoc]

def panelA : Panel := { title := "a1", description := "", type := "graph", targets := [] }

def panelB : Panel := { title := "b1", description := "", type := "graph", targets := [] }

def rowA : RowPanel :=
  { title := "A", description := "", type := "row", targets := [], panels := [panelA] }

def rowB : RowPanel :=
  { title := "B", description := "", type := "row", targets := [], panels := [panelB] }

def dashTwoRows : Dashboard :=
  { title := "d", description := "", links := [], panels := [rowA, rowB] }

/-- **C1, counterexample.** On a dashboard with two RowPanels the flattening
implemented by `Dashboard.GetPanels` is NOT the per-RowPanel interleaving
(children of a row immediately followed by that row's synthetic panel) that
the claim states: the code groups all children first, then all synthetics. -/
theorem claim_C1_counterexample :
    Dashboard.GetPanels dashTwoRows ≠ specInterleavedFlatten dashTwoRows ∧
    Dashboard.GetPanels dashTwoRows =
      [panelA, panelB, rowA.GetPanel, rowB.GetPanel] ∧
    specInterleavedFlatten dashTwoRows =
      [panelA, rowA.GetPanel, panelB, rowB.GetPanel] := by
  refine ⟨?_, by decide, by decide⟩
  decide

/-- **C1, amended.** For every dashboard, the flattened panel sequence is the
concatenation of all nested child panels of all top-level RowPanels (in row
order, each row's children unmodified), followed by all synthetic Panels
built from each RowPanel's own title/description/type/targets with the
`panels` field dropped (again in row order): children and synthetics are
grouped, not interleaved per RowPanel. -/
theorem claim_C1 :
    (∀ d : Dashboard, d.GetPanels =
      (d.panels.map RowPanel.panels).flatten ++ d.panels.map RowPanel.GetPanel) ∧
    (∀ r : RowPanel, r.GetPanel =
      { title := r.title, description := r.description, type := r.type,
        targets := r.targets }) := by
  constructor
  · intro d
    rw [Dashboard.GetPanels, foldl_append_children, foldl_append_synthetic,
      List.nil_append]
  · intro r
    rfl

/-! ## Single-pass string replacement

Model of Go's `strings.Replacer` (and of `strings.ReplaceAll`, the
single-rule case), as used by pkg/parser/parser.go: one left-to-right scan;
at each position the first rule whose pattern matches is applied and the
scan continues after the matched text, so no replacement output is ever
rescanned or re-substituted by a later rule. -/

/-- If the pattern (first argument) is a prefix of the text, return the rest
of the text after the pattern; otherwise `none`. -/
def dropPattern : List Char → List Char → Option (List Char)
  | [], s => some s
  | _ :: _, [] => none
  | p :: ps, c :: cs => if c = p then dropPattern ps cs else none

/-- Try each (pattern, replacement) rule in order at the head of the text;
return the first matching rule's replacement together with the text after
the matched pattern. -/
def findMatch (rules : List (List Char × List Char)) (s : List Char) :
    Option (List Char × List Char) :=
  match rules with
  | [] => none
  | (pat, repl) :: rs =>
    match dropPattern pat s with
    | some rest => some (repl, rest)
    | none => findMatch rs s

/-- One left-to-right pass of the replacer.  The fuel only bounds recursion
depth; any fuel ≥ length of the text computes the full replacement. -/
def replacerGo (rules : List (List Char × List Char)) :
    Nat → List Char → List Char
  | 0, s => s
  | _ + 1, [] => []
  | fuel + 1, c :: rest =>
    match findMatch rules (c :: rest) with
    | some (repl, remainder) => repl ++ replacerGo rules fuel remainder
    | none => c :: replacerGo rules fuel rest

theorem dropPattern_length (p : List Char) :
    ∀ (s r : List Char), dropPattern p s = some r → r.length + p.length = s.length := by
  induction p with
  | nil =>
    intro s r h
    simp [dropPattern] at h
    simp [h]
  | cons x xs ih =>
    intro s r h
    cases s with
    | nil => simp [dropPattern] at h
    | cons c cs =>
      rw [dropPattern] at h
      by_cases hc : c = x
      · rw [if_pos hc] at h
        have := ih cs r h
        simp [List.length_cons]
        omega
      · rw [if_neg hc] at h
        cases h

theorem findMatch_rem_length {rules : List (List Char × List Char)}
    (hrules : ∀ r ∈ rules, r.1 ≠ []) :
    ∀ {s repl rem : List Char}, findMatch rules s = some (repl, rem) →
      rem.length < s.length := by
  induction rules with
  | nil =>
    intro s repl rem h
    cases h
  | cons r rs ih =>
    intro s repl rem h
    obtain ⟨pat, rp⟩ := r
    rw [findMatch] at h
    cases hdp : dropPattern pat s with
    | some rest =>
      rw [hdp] at h
      have hrem : rest = rem := congrArg Prod.snd (Option.some.inj h)
      subst hrem
      have hlen := dropPattern_length pat s rest hdp
      have hpat : pat ≠ [] := hrules (pat, rp) (List.mem_cons_self _ _)
      have hpos : 0 < pat.length := List.length_pos.mpr hpat
      omega
    | none =>
      rw [hdp] at h
      exact ih (fun r hr => hrules r (List.mem_cons_of_mem _ hr)) h

theorem replacerGo_nil (rules : List (List Char × List Char)) (f : Nat) :
    replacerGo rules f [] = [] := by
  cases f <;> rfl

theorem replacerGo_fuel (rules : List (List Char × List Char))
    (hrules : ∀ r ∈ rules, r.1 ≠ []) :
    ∀ (f₁ f₂ : Nat) (s : List Char), s.length ≤ f₁ → s.length ≤ f₂ →
      replacerGo rules f₁ s = replacerGo rules f₂ s := by
  intro f₁
  induction f₁ with
  | zero =>
    intro f₂ s h1 _
    have hs : s = [] := List.length_eq_zero.mp (Nat.le_zero.mp h1)
    subst hs
    rw [replacerGo_nil, replacerGo_nil]
  | succ n ih =>
    intro f₂ s h1 h2
    cases s with
    | nil => rw [replacerGo_nil, replacerGo_nil]
    | cons c rest =>
      cases f₂ with
      | zero => simp at h2
      | succ m =>
        cases hfm : findMatch rules (c :: rest) with
        | some pr =>
          obtain ⟨repl, rem⟩ := pr
          rw [replacerGo, replacerGo, hfm]
          have hrem := findMatch_rem_length hrules hfm
          simp only [List.length_cons] at hrem h1 h2
          exact congrArg (fun t => repl ++ t) (ih m rem (by omega) (by omega))
        | none =>
          rw [replacerGo, replacerGo, hfm]
          simp only [List.length_cons] at h1 h2
          exact congrArg (fun t => c :: t) (ih m rest (by omega) (by omega))

/-! ### The three placeholder rules from parser.go line 914 -/

def rangeVar : List Char := ['$', '_', '_', 'r', 'a', 'n', 'g', 'e']

def rateIntervalVar : List Char :=
  ['$', '_', '_', 'r', 'a', 't', 'e', '_', 'i', 'n', 't', 'e', 'r', 'v', 'a', 'l']

def intervalVar : List Char := ['$', 'i', 'n', 't', 'e', 'r', 'v', 'a', 'l']

def oneM : List Char := ['1', 'm']

/-- The rule list of
`strings.NewReplacer("$__range", "1m", "$__rate_interval", "1m", "$interval", "1m")`. -/
def promRules : List (List Char × List Char) :=
  [(rangeVar, oneM), (rateIntervalVar, oneM), (intervalVar, oneM)]

theorem promRules_patterns_ne_nil : ∀ r ∈ promRules, r.1 ≠ [] := by decide

/-- `replacer.Replace` from parser.go lines 914-915, character-list level. -/
def replaceChars (s : List Char) : List Char :=
  replacerGo promRules s.length s

/-- `replacer.Replace` from parser.go lines 914-915: substitute the three
placeholder variables by `1m` in a single left-to-right pass. -/
def replacePlaceholders (s : String) : String :=
  ⟨replaceChars s.data⟩

theorem findMatch_range (s : List Char) :
    findMatch promRules (rangeVar ++ s) = some (oneM, s) := rfl

theorem findMatch_rateInterval (s : List Char) :
    findMatch promRules (rateIntervalVar ++ s) = some (oneM, s) := rfl

theorem findMatch_interval (s : List Char) :
    findMatch promRules (intervalVar ++ s) = some (oneM, s) := rfl

theorem replaceChars_step {s repl rem : List Char} (f : Nat)
    (hf : s.length ≤ f + 1) (hs : s ≠ [])
    (h : findMatch promRules s = some (repl, rem)) :
    replacerGo promRules (f + 1) s = repl ++ replacerGo promRules f rem := by
  cases s with
  | nil => exact absurd rfl hs
  | cons c rest =>
    rw [replacerGo, h]

/-! ## PromQL expression model

The query-expression parser is an external dependency of the repository
(github.com/prometheus/prometheus/promql/parser); the spec (§4.1) calls it
out as the one reusable external grammar.  Modelled from the spec: an AST
with vector selectors (the metric references), range/matrix selectors,
function calls and aggregations (both are calls here — the visitor treats
every non-VectorSelector node the same way), parenthesised expressions,
binary operators and number literals, with a recursive-descent parser for
that fragment.  `parser.Walk` visits nodes depth-first pre-order, children
in left-to-right order. -/

inductive PromExpr where
  | vector (name : String)
  | matrix (inner : PromExpr) (range : String)
  | call (fn : String) (args : List PromExpr)
  | binary (op : Char) (lhs rhs : PromExpr)
  | paren (inner : PromExpr)
  | number (lit : String)
deriving Repr

mutual

/-- The traversal of `parser.Walk` with `metricNameVisitor` (parser.go lines
856-862 and 965-969): depth-first pre-order, collecting the name of every
VectorSelector node. -/
def walkMetrics : PromExpr → List String
  | .vector n => [n]
  | .matrix e _ => walkMetrics e
  | .call _ args => walkMetricsList args
  | .binary _ lhs rhs => walkMetrics lhs ++ walkMetrics rhs
  | .paren e => walkMetrics e
  | .number _ => []

def walkMetricsList : List PromExpr → List String
  | [] => []
  | e :: es => walkMetrics e ++ walkMetricsList es

end

/-- `extractMetrics` from parser.go lines 965-969. -/
def extractMetrics (node : PromExpr) : List String :=
  walkMetrics node

def isIdentStartChar (c : Char) : Bool :=
  c.isAlpha || c = '_' || c = ':'

def isIdentTailChar (c : Char) : Bool :=
  c.isAlphanum || c = '_' || c = ':'

def skipSpaces : List Char → List Char
  | [] => []
  | c :: rest => if c = ' ' ∨ c = '\t' ∨ c = '\n' then skipSpaces rest else c :: rest

def takeIdent : List Char → List Char × List Char
  | [] => ([], [])
  | c :: rest =>
    if isIdentTailChar c then
      let (i, r) := takeIdent rest
      (c :: i, r)
    else ([], c :: rest)

def takeNum : List Char → List Char × List Char
  | [] => ([], [])
  | c :: rest =>
    if c.isDigit ∨ c = '.' then
      let (n, r) := takeNum rest
      (c :: n, r)
    else ([], c :: rest)

def takeUntil (stop : Char) : List Char → Option (List Char × List Char)
  | [] => none
  | c :: rest =>
    if c = stop then some ([], rest)
    else
      match takeUntil stop rest with
      | some (pre, post) => some (c :: pre, post)
      | none => none

mutual

/-- Expression level: an operand followed by binary operators. -/
def parseE : Nat → List Char → Except String (PromExpr × List Char)
  | 0, _ => .error "promql: fuel exhausted"
  | f + 1, s =>
    match parseU f s with
    | .error e => .error e
    | .ok (lhs, rest) => parseBin f lhs rest

/-- Left-associative chain of binary operators. -/
def parseBin : Nat → PromExpr → List Char → Except String (PromExpr × List Char)
  | 0, _, _ => .error "promql: fuel exhausted"
  | f + 1, lhs, s =>
    match skipSpaces s with
    | [] => .ok (lhs, [])
    | c :: rest =>
      if c = '+' ∨ c = '-' ∨ c = '*' ∨ c = '/' then
        match parseU f rest with
        | .error e => .error e
        | .ok (rhs, rest2) => parseBin f (.binary c lhs rhs) rest2
      else .ok (lhs, c :: rest)

/-- Operand: a primary expression with an optional `[duration]` range. -/
def parseU : Nat → List Char → Except String (PromExpr × List Char)
  | 0, _ => .error "promql: fuel exhausted"
  | f + 1, s =>
    match parsePrim f s with
    | .error e => .error e
    | .ok (p, rest) =>
      match skipSpaces rest with
      | '[' :: r2 =>
        match takeUntil ']' r2 with
        | some (dur, r3) =>
          if dur = [] then .error "promql: missing range duration"
          else .ok (.matrix p ⟨dur⟩, r3)
        | none => .error "promql: missing closing bracket"
      | other => .ok (p, other)

/-- Primary: parenthesised expression, number literal, function call or
vector selector. -/
def parsePrim : Nat → List Char → Except String (PromExpr × List Char)
  | 0, _ => .error "promql: fuel exhausted"
  | f + 1, s =>
    match skipSpaces s with
    | [] => .error "promql: unexpected end of input"
    | '(' :: rest =>
      match parseE f rest with
      | .error e => .error e
      | .ok (e, r2) =>
        match skipSpaces r2 with
        | ')' :: r3 => .ok (.paren e, r3)
        | _ => .error "promql: expected closing paren"
    | c :: rest =>
      if c.isDigit then
        let (numChars, r2) := takeNum (c :: rest)
        .ok (.number ⟨numChars⟩, r2)
      else if isIdentStartChar c then
        let (idChars, r2) := takeIdent (c :: rest)
        match skipSpaces r2 with
        | '(' :: r3 =>
          match skipSpaces r3 with
          | ')' :: r4 => .ok (.call ⟨idChars⟩ [], r4)
          | _ =>
            match parseArgs f r3 with
            | .error e => .error e
            | .ok (args, r4) => .ok (.call ⟨idChars⟩ args, r4)
        | _ => .ok (.vector ⟨idChars⟩, r2)
      else .error "promql: unexpected character"

/-- Comma-separated call arguments up to the closing parenthesis. -/
def parseArgs : Nat → List Char → Except String (List PromExpr × List Char)
  | 0, _ => .error "promql: fuel exhausted"
  | f + 1, s =>
    match parseE f s with
    | .error e => .error e
    | .ok (e, r) =>
      match skipSpaces r with
      | ',' :: r2 =>
        match parseArgs f r2 with
        | .error e => .error e
        | .ok (es, r3) => .ok (e :: es, r3)
      | ')' :: r2 => .ok ([e], r2)
      | _ => .error "promql: expected comma or closing paren"

end

/-- `parser.ParseExpr` of the external promql parser (modelled): parse a
whole expression string, requiring all input to be consumed. -/
def promqlParseExpr (s : String) : Except String PromExpr :=
  match parseE (4 * s.length + 4) s.data with
  | .error e => .error e
  | .ok (e, rest) =>
    match skipSpaces rest with
    | [] => .ok e
    | _ => .error "promql: unexpected trailing input"

/-- `extractMetricFromExpression` from parser.go lines 948-955: parse the
expression; on failure wrap the parser's message, on success walk the AST. -/
def extractMetricFromExpression (expr : String) : Except String (List String) :=
  match promqlParseExpr expr with
  | .error e => .error ("error parsing promql expression: " ++ e)
  | .ok p => .ok (extractMetrics p)

/-! ## Markdown pipeline, translated from pkg/parser/parser.go and
pkg/templates/templates.go -/

/-- The error cases of `CreateDocumentationFromFile`, one per wrapped
`fmt.Errorf` in parser.go (read, unmarshal, open, promql parse). -/
inductive DocError where
  | readError (msg : String)
  | deserializationError (msg : String)
  | openError (msg : String)
  | parseError (msg : String)
deriving DecidableEq, Repr

/-- `panelData` from parser.go lines 835-844. -/
structure PanelData where
  title : String
  description : String
  type : String
  metrics : List String
deriving DecidableEq, Repr

/-- `MarkdownData` from parser.go lines 824-831. -/
structure MarkdownData where
  title : String
  description : String
  panels : List PanelData
deriving DecidableEq, Repr

/-- `strings.ReplaceAll(desc, "\n", "\\n")` from parser.go line 911
(single-rule single-pass replacement). -/
def escapeNewlines (s : String) : String :=
  ⟨replacerGo [(['\n'], ['\\', 'n'])] s.data.length s.data⟩

/-- Metrics of one target inside the panel loop (parser.go lines 913-920):
substitute the placeholder variables, then parse and extract; a parse
failure becomes the per-file parse error. -/
def targetMetrics (t : Target) : Except DocError (List String) :=
  match extractMetricFromExpression (replacePlaceholders t.expr) with
  | .error e => .error (.parseError e)
  | .ok ms => .ok ms

/-- The `for _, target := range panel.Targets` loop: metrics of all targets
concatenated in target order; the first parse failure aborts the file. -/
def collectPanelMetrics : List Target → Except DocError (List String)
  | [] => .ok []
  | t :: ts =>
    match targetMetrics t with
    | .error e => .error e
    | .ok ms =>
      match collectPanelMetrics ts with
      | .error e => .error e
      | .ok rest => .ok (ms ++ rest)

/-- The body of the panel loop for one non-row panel (parser.go lines
907-924): escape newlines in the description, gather all targets' metrics,
deduplicate once over the whole concatenation. -/
def buildPanelData (p : Panel) : Except DocError PanelData :=
  match collectPanelMetrics p.targets with
  | .error e => .error e
  | .ok ms =>
    .ok { title := p.title, description := escapeNewlines p.description,
          type := p.type, metrics := GetUniqueElements ms }

/-- The `for _, panel := range dash.GetPanels()` loop (parser.go lines
906-927): panels whose type is `"row"` contribute nothing (their targets
are not even parsed); the others are processed in order. -/
def buildPanels : List Panel → Except DocError (List PanelData)
  | [] => .ok []
  | p :: ps =>
    if p.type ≠ "row" then
      match buildPanelData p with
      | .error e => .error e
      | .ok pd =>
        match buildPanels ps with
        | .error e => .error e
        | .ok rest => .ok (pd :: rest)
    else buildPanels ps

/-- One metric rendered by the inner `range .Metrics` of the template of
templates.go: an inline code span followed by a line break tag. -/
def renderMetric (m : String) : String :=
  " `" ++ m ++ "`<br>"

/-- One table row of the template, produced per entry of `.Panels`. -/
def renderPanelRow (pd : PanelData) : String :=
  "\n| " ++ pd.title ++ " | " ++ pd.description ++ " | " ++ pd.type ++ " |"
    ++ String.join (pd.metrics.map renderMetric) ++ " |"

/-- The fixed part of the template of templates.go: H1 title, description
line, table header and separator row. -/
def mdHeader (title descr : String) : String :=
  "# " ++ title ++ "\n" ++ descr
    ++ "\n\n| Panel Name | Panel Description | Panel Type | Metrics Used |\n| ---------- | ----------------- | ---------- | -------- |"

/-- Execution of the fixed (well-formed) markdown template of templates.go
on a render model: header followed by one table row per panel, in order. -/
def renderTemplate (d : MarkdownData) : String :=
  mdHeader d.title d.description ++ String.join (d.panels.map renderPanelRow)

/-- `filepath.Base` (modelled: the part of the path after the last slash). -/
def filepathBase (p : String) : String :=
  ⟨(p.data.reverse.takeWhile (fun c => ¬ c = '/')).reverse⟩

/-- `strings.TrimSuffix`: drop the suffix when present. -/
def trimSuffix (s sfx : String) : String :=
  match dropPattern sfx.data.reverse s.data.reverse with
  | some rest => ⟨rest.reverse⟩
  | none => s

/-- `filepath.Join` (modelled: insert one separator). -/
def filepathJoin (dir name : String) : String :=
  dir ++ "/" ++ name

/-- The output markdown file name computed at parser.go line 893:
`filepath.Join(outputDir, strings.TrimSuffix(filepath.Base(dashboard), ".json") + ".md")`. -/
def mdFileName (dashboard outputDir : String) : String :=
  filepathJoin outputDir (trimSuffix (filepathBase dashboard) ".json" ++ ".md")

/-- The effectful collaborators of `CreateDocumentationFromFile`:
`os.ReadFile`, `json.Unmarshal` into a `Dashboard`, and `os.OpenFile` with
the create-and-truncate flags.  They are parameters of the embedding. -/
structure World where
  readFile : String → Except String String
  jsonUnmarshal : String → Except String Dashboard
  openFile : String → Except String Unit

/-- `CreateDocumentationFromFile` from parser.go lines 874-938, in source
order: read the file, unmarshal the JSON, open (create-and-truncate) the
output file, process the flattened panels, execute the template.  The
second component is the output-file state: `none` when it was never
created, `some (name, content)` once it was opened with create-and-truncate
(content `""` until the template has executed).  The fixed template of
templates.go parses successfully and its execution on a `MarkdownData`
value is the total function `renderTemplate`, so the GetTemplate/Execute
error paths do not arise. -/
def CreateDocumentationFromFile (w : World) (dashboard outputDir : String) :
    Except DocError Unit × Option (String × String) :=
  match w.readFile dashboard with
  | .error e => (.error (.readError ("error reading dashboard file: " ++ e)), none)
  | .ok bs =>
    match w.jsonUnmarshal bs with
    | .error e =>
      (.error (.deserializationError ("error unmarshalling dashboard json: " ++ e)), none)
    | .ok dash =>
      let fileName := mdFileName dashboard outputDir
      match w.openFile fileName with
      | .error e =>
        (.error (.openError ("error opening the corresponding markdown file: " ++ e)), none)
      | .ok _ =>
        match buildPanels dash.GetPanels with
        | .error e => (.error e, some (fileName, ""))
        | .ok pds =>
          let data : MarkdownData :=
            { title := dash.title, description := dash.description, panels := pds }
          (.ok (), some (fileName, renderTemplate data))

/-! ## multierror model and SafeMultierrorWait, from pkg/utils/utils.go -/

/-- The non-nil result of `SafeMultierrorWait`: the nil-group error or the
combined per-task errors of `g.Wait()`. -/
inductive MultiWaitError (ε : Type _) where
  | nilGroup
  | aggregate (errs : List ε)
deriving DecidableEq, Repr

/-- `multierror.Group.Wait` (external hashicorp/go-multierror, modelled): a
group is the list of its launched tasks' results (`none` = the task
returned nil); `Wait` waits for every task and collects all non-nil
errors. -/
def multierrorWait {ε : Type _} (results : List (Option ε)) : List ε :=
  results.filterMap id

/-- `SafeMultierrorWait` from utils.go lines 730-737: a custom error for a
nil group pointer, otherwise `g.Wait().ErrorOrNil()` — `none` exactly when
no task failed. -/
def SafeMultierrorWait {ε : Type _} (g : Option (List (Option ε))) :
    Option (MultiWaitError ε) :=
  match g with
  | none => some .nilGroup
  | some results =>
    match multierrorWait results with
    | [] => none
    | e :: es => some (.aggregate (e :: es))

/-! ## Batch processor, translated from processFiles (cmd main) -/

/-- The `g.Go` closures of `processFiles`: one task per resolved file, in
file order. -/
def runTasks (w : World) (files : List String) (outputDir : String) :
    List (Except DocError Unit × Option (String × String)) :=
  files.map (fun f => CreateDocumentationFromFile w f outputDir)

/-- The error slot each task hands to the multierror group. -/
def taskErrors (results : List (Except DocError Unit × Option (String × String))) :
    List (Option DocError) :=
  results.map (fun r => match r.1 with | .error e => some e | .ok _ => none)

/-- The output files written by a batch of tasks. -/
def batchWrites (results : List (Except DocError Unit × Option (String × String))) :
    List (String × String) :=
  results.filterMap (fun r => r.2)

/-- The glob metacharacters of `IsGlobPattern` (utils.go line 711). -/
def globChars : List Char := ['*', '?', '[', ']', '{', '}']

/-- `IsGlobPattern` from utils.go lines 710-712:
`strings.ContainsAny(input, "*?[]\x7b\x7d")` — true iff some character of
the input is one of the glob metacharacters. -/
def IsGlobPattern (input : String) : Bool :=
  input.data.any (fun c => decide (c ∈ globChars))

/-- `strings.ToLower` (ASCII model). -/
def stringToLower (s : String) : String :=
  ⟨s.data.map Char.toLower⟩

def extGo (acc : List Char) : List Char → List Char
  | [] => []
  | c :: rest =>
    if c = '.' then '.' :: acc
    else if c = '/' then []
    else extGo (c :: acc) rest

/-- `filepath.Ext` (modelled: the suffix from the last dot of the last path
element, empty when there is no dot). -/
def filepathExt (p : String) : String :=
  ⟨extGo [] p.data.reverse⟩

/-- The errors `processFiles` can return: glob pattern failure, invalid
input, directory read failure, a single file's failure, or the aggregate of
a concurrent batch. -/
inductive BatchError where
  | patternError (msg : String)
  | invalidInput (msg : String)
  | dirReadError (msg : String)
  | docFailure (e : DocError)
  | aggregate (errs : List DocError)
  | nilGroupFailure
deriving DecidableEq, Repr

/-- The effectful collaborators of `processFiles`: the document pipeline's
world plus `utils.IsValidFile`, `utils.IsValidDirectory`, `filepath.Glob`
and `utils.RetrieveJSONFilesFromDirectory`. -/
structure BatchWorld where
  doc : World
  isValidFile : String → Bool
  isValidDirectory : String → Bool
  glob : String → Except String (List String)
  readDirJSON : String → Except String (List String)

/-- One glob-branch task: only matches whose lowercased extension is
`.json` are processed, the rest are skipped inside the task. -/
def globTask (w : BatchWorld) (outputDir m : String) :
    Except DocError Unit × Option (String × String) :=
  if stringToLower (filepathExt m) == ".json"
  then CreateDocumentationFromFile w.doc m outputDir
  else (.ok (), none)

/-- `SafeMultierrorWait(&g)` applied to a launched batch, with the
resulting writes. -/
def waitAndReport (results : List (Except DocError Unit × Option (String × String))) :
    Except BatchError Unit × List (String × String) :=
  match SafeMultierrorWait (some (taskErrors results)) with
  | some (.aggregate errs) => (.error (.aggregate errs), batchWrites results)
  | some .nilGroup => (.error .nilGroupFailure, batchWrites results)
  | none => (.ok (), batchWrites results)

/-- The glob branch of `processFiles`: expand the pattern; a glob error is
fatal, zero matches is success with nothing written, otherwise one task per
match. -/
def processGlob (w : BatchWorld) (input output : String) :
    Except BatchError Unit × List (String × String) :=
  match w.glob input with
  | .error e => (.error (.patternError e), [])
  | .ok found =>
    if found.isEmpty then (.ok (), [])
    else waitAndReport (found.map (globTask w output))

/-- The single-file branch of `processFiles`: the extension must be
`.json` (case-insensitively), then one direct call. -/
def processSingleFile (w : BatchWorld) (input output : String) :
    Except BatchError Unit × List (String × String) :=
  if ¬ (stringToLower (filepathExt input) == ".json") then
    (.error (.invalidInput "input file must be a json file"), [])
  else
    match CreateDocumentationFromFile w.doc input output with
    | (.error e, o) => (.error (.docFailure e), o.toList)
    | (.ok _, o) => (.ok (), o.toList)

/-- The directory branch of `processFiles`: list the JSON files; zero files
is success, otherwise one task per file joined to the directory. -/
def processDirectory (w : BatchWorld) (input output : String) :
    Except BatchError Unit × List (String × String) :=
  match w.readDirJSON input with
  | .error e => (.error (.dirReadError e), [])
  | .ok files =>
    if files.isEmpty then (.ok (), [])
    else waitAndReport (runTasks w.doc (files.map (filepathJoin input)) output)

/-- `processFiles` from the cmd main package: the three input modes tested
in precedence order glob → single file → directory, otherwise an invalid
input error. -/
def processFiles (w : BatchWorld) (input output : String) :
    Except BatchError Unit × List (String × String) :=
  if IsGlobPattern input then processGlob w input output
  else if w.isValidFile input then processSingleFile w input output
  else if w.isValidDirectory input then processDirectory w input output
  else (.error (.invalidInput "input path is not a valid file, directory, or glob pattern"), [])

/-! ## Shared lemmas about SafeMultierrorWait -/

theorem safeWait_mem_aggregate {ε : Type _} (results : List (Option ε)) (e : ε)
    (h : some e ∈ results) :
    ∃ l, SafeMultierrorWait (some results) = some (.aggregate l) ∧ e ∈ l := by
  have he : e ∈ multierrorWait results := by
    rw [multierrorWait]
    exact List.mem_filterMap.mpr ⟨some e, h, rfl⟩
  cases hmw : multierrorWait results with
  | nil =>
    rw [hmw] at he
    cases he
  | cons x xs =>
    refine ⟨x :: xs, ?_, ?_⟩
    · simp [SafeMultierrorWait, hmw]
    · rw [hmw] at he
      exact he

theorem safeWait_none_iff {ε : Type _} (results : List (Option ε)) :
    SafeMultierrorWait (some results) = none ↔ ∀ r ∈ results, r = none := by
  constructor
  · intro h r hr
    cases hrr : r with
    | none => rfl
    | some e =>
      rw [hrr] at hr
      obtain ⟨l, hl, _⟩ := safeWait_mem_aggregate results e hr
      rw [hl] at h
      cases h
  · intro hall
    have hmw : multierrorWait results = [] := by
      rw [multierrorWait]
      refine List.filterMap_eq_nil_iff.mpr ?_
      intro a ha
      rw [hall a ha]
      rfl
    simp [SafeMultierrorWait, hmw]

/-! ## Claim C2 -/

/-- **C2.** The aggregate of `SafeMultierrorWait` on a launched group is
`none` exactly when zero tasks failed; when one or more tasks fail, the
aggregate contains every individual task's failure; and waiting on a group
with zero launched tasks returns no error (the function is total, so in
particular it does not panic). -/
theorem claim_C2 {ε : Type _} :
    (∀ results : List (Option ε),
      SafeMultierrorWait (some results) = none ↔ ∀ r ∈ results, r = none) ∧
    (∀ (results : List (Option ε)) (e : ε), some e ∈ results →
      ∃ l, SafeMultierrorWait (some results) = some (MultiWaitError.aggregate l) ∧
        e ∈ l) ∧
    SafeMultierrorWait (some ([] : List (Option ε))) = none :=
  ⟨safeWait_none_iff, safeWait_mem_aggregate, rfl⟩

/-- Witness for C2: a batch where some tasks fail surfaces each failure. -/
theorem claim_C2_witness :
    ∃ l, SafeMultierrorWait (some [none, some "error 1", some "error 2"]) =
      some (MultiWaitError.aggregate l) ∧ "error 1" ∈ l :=
  claim_C2.2.1 [none, some "error 1", some "error 2"] "error 1" (by decide)

/-! ## Claim C7 -/

/-- **C7.** Input resolution precedence: any input containing a glob
metacharacter is processed by the glob branch (whatever `IsValidFile` and
`IsValidDirectory` say of it); a glob expansion with zero matches returns
success and writes no output files; the single-file and directory modes are
reached only when the input is not a glob pattern. -/
theorem claim_C7 :
    (∀ (w : BatchWorld) (input output : String), IsGlobPattern input = true →
      processFiles w input output = processGlob w input output) ∧
    (∀ (w : BatchWorld) (input output : String), IsGlobPattern input = true →
      w.glob input = .ok [] →
      processFiles w input output = (.ok (), [])) ∧
    (∀ input : String, IsGlobPattern input = true ↔
      ∃ c ∈ input.data,
        c = '*' ∨ c = '?' ∨ c = '[' ∨ c = ']' ∨ c = '{' ∨ c = '}') ∧
    (∀ (w : BatchWorld) (input output : String), IsGlobPattern input = false →
      processFiles w input output =
        (if w.isValidFile input then processSingleFile w input output
         else if w.isValidDirectory input then processDirectory w input output
         else (.error (.invalidInput
           "input path is not a valid file, directory, or glob pattern"), []))) := by
  refine ⟨?_, ?_, ?_, ?_⟩
  · intro w input output h
    simp [processFiles, h]
  · intro w input output h hglob
    simp [processFiles, h, processGlob, hglob]
  · intro input
    simp [IsGlobPattern, List.any_eq_true, globChars]
  · intro w input output h
    simp [processFiles, h]

def wC7doc : World where
  readFile := fun _ => .ok ""
  jsonUnmarshal := fun _ =>
    .ok { title := "", description := "", links := [], panels := [] }
  openFile := fun _ => .ok ()

/-- A world in which every path "exists" both as a file and as a directory,
and the glob expansion of any pattern is empty. -/
def wC7 : BatchWorld where
  doc := wC7doc
  isValidFile := fun _ => true
  isValidDirectory := fun _ => true
  glob := fun _ => .ok []
  readDirJSON := fun _ => .ok []

/-- Witness for C7: `*.json` is handled by the glob branch even though a
file of that exact name exists, and its empty expansion is a success that
writes nothing. -/
theorem claim_C7_witness :
    processFiles wC7 "*.json" "out" = (.ok (), []) ∧
    wC7.isValidFile "*.json" = true :=
  ⟨claim_C7.2.1 wC7 "*.json" "out" (by decide) rfl, rfl⟩

/-! ## Claim C8 -/

/-- **C8.** Whenever the input file's bytes fail to deserialize, processing
that file fails with a DeserializationError wrapping the underlying parse
failure message, and no output file is written for that file: the failure
happens before the output markdown file is created. -/
theorem claim_C8 :
    ∀ (w : World) (file outDir bs msg : String),
      w.readFile file = .ok bs →
      w.jsonUnmarshal bs = .error msg →
      CreateDocumentationFromFile w file outDir =
        (.error (.deserializationError
          ("error unmarshalling dashboard json: " ++ msg)), none) := by
  intro w file outDir bs msg hread hjson
  simp [CreateDocumentationFromFile, hread, hjson]

/-- A world in which reading yields empty bytes and the JSON decoder of
`encoding/json` rejects them with its end-of-input message. -/
def wC8 : World where
  readFile := fun _ => .ok ""
  jsonUnmarshal := fun s =>
    if s = "" then .error "unexpected end of JSON input"
    else .ok { title := "", description := "", links := [], panels := [] }
  openFile := fun _ => .ok ()

/-- Witness for C8: empty bytes produce the DeserializationError and no
output file. -/
theorem claim_C8_witness :
    CreateDocumentationFromFile wC8 "empty_dashboard.json" "out" =
      (.error (.deserializationError
        "error unmarshalling dashboard json: unexpected end of JSON input"), none) :=
  claim_C8 wC8 "empty_dashboard.json" "out" "" "unexpected end of JSON input"
    rfl rfl

/-! ## Claim C10 -/

/-- **C10.** The output markdown file is opened with create-and-truncate
after deserialization but before any query expression is parsed: whenever a
file deserializes successfully and then fails with a query parse error, the
named output file has already been created and truncated and is left behind
empty; read errors and deserialization errors, in contrast, happen before
the output file is opened, and leave no output file behind. -/
theorem claim_C10 :
    (∀ (w : World) (file outDir bs : String) (dash : Dashboard) (e : DocError),
      w.readFile file = .ok bs →
      w.jsonUnmarshal bs = .ok dash →
      w.openFile (mdFileName file outDir) = .ok () →
      buildPanels dash.GetPanels = .error e →
      CreateDocumentationFromFile w file outDir =
        (.error e, some (mdFileName file outDir, ""))) ∧
    (∀ (w : World) (file outDir msg : String),
      w.readFile file = .error msg →
      (CreateDocumentationFromFile w file outDir).2 = none) ∧
    (∀ (w : World) (file outDir bs msg : String),
      w.readFile file = .ok bs →
      w.jsonUnmarshal bs = .error msg →
      (CreateDocumentationFromFile w file outDir).2 = none) := by
  refine ⟨?_, ?_, ?_⟩
  · intro w file outDir bs dash e hread hjson hopen hpanels
    simp [CreateDocumentationFromFile, hread, hjson, hopen, hpanels]
  · intro w file outDir msg hread
    simp [CreateDocumentationFromFile, hread]
  · intro w file outDir bs msg hread hjson
    simp [CreateDocumentationFromFile, hread, hjson]

/-! Concrete fixtures: a dashboard whose one non-row panel has a target with
a malformed query expression. -/

def dsProm : Datasource := { type := "prometheus", uid := "uid" }

def badTarget : Target := { expr := "(((", datasource := dsProm }

def badPanel : Panel :=
  { title := "B", description := "", type := "graph", targets := [badTarget] }

def badRow : RowPanel :=
  { title := "R", description := "", type := "row", targets := [], panels := [badPanel] }

def badDashboard : Dashboard :=
  { title := "T", description := "D", links := [], panels := [badRow] }

/-- A world whose file always deserializes to `badDashboard`. -/
def wParseErr : World where
  readFile := fun _ => .ok "raw"
  jsonUnmarshal := fun _ => .ok badDashboard
  openFile := fun _ => .ok ()

/-- The parse-error message the modelled promql parser produces on `(((`. -/
def badExprMsg : String :=
  "error parsing promql expression: promql: unexpected end of input"

/-- Witness for C10: on a query parse error the output file exists, named
and empty. -/
theorem claim_C10_witness :
    CreateDocumentationFromFile wParseErr "dash.json" "out" =
      (.error (.parseError badExprMsg), some (mdFileName "dash.json" "out", "")) :=
  claim_C10.1 wParseErr "dash.json" "out" "raw" badDashboard
    (.parseError badExprMsg) rfl rfl rfl rfl

/-! ## Claim C5 -/

theorem buildPanelData_ok {p : Panel} {pd : PanelData}
    (h : buildPanelData p = .ok pd) :
    ∃ ms, collectPanelMetrics p.targets = .ok ms ∧
      pd = { title := p.title, description := escapeNewlines p.description,
             type := p.type, metrics := GetUniqueElements ms } := by
  rw [buildPanelData] at h
  cases hcm : collectPanelMetrics p.targets with
  | error e =>
    rw [hcm] at h
    cases h
  | ok ms =>
    rw [hcm] at h
    exact ⟨ms, rfl, (Except.ok.inj h).symm⟩

theorem buildPanels_ok_shape :
    ∀ (ps : List Panel) (pds : List PanelData), buildPanels ps = .ok pds →
      pds.map (fun pd => (pd.title, pd.type)) =
        (ps.filter (fun p => p.type != "row")).map (fun p => (p.title, p.type)) := by
  intro ps
  induction ps with
  | nil =>
    intro pds h
    rw [buildPanels] at h
    rw [← Except.ok.inj h]
    rfl
  | cons p ps ih =>
    intro pds h
    rw [buildPanels] at h
    by_cases hrow : p.type = "row"
    · rw [if_neg (fun hc => hc hrow)] at h
      have hfateilter : (p.type != "row") = false := by
        simp [hrow]
      simp only [List.filter_cons, hfateilter, Bool.false_eq_true, if_false]
      exact ih pds h
    · rw [if_pos hrow] at h
      cases hpd : buildPanelData p with
      | error e =>
        rw [hpd] at h
        cases h
      | ok pd =>
        rw [hpd] at h
        cases hrest : buildPanels ps with
        | error e =>
          rw [hrest] at h
          cases h
        | ok rest =>
          rw [hrest] at h
          rw [← Except.ok.inj h]
          obtain ⟨ms, _, hpdeq⟩ := buildPanelData_ok hpd
          have hkeep : (p.type != "row") = true := by
            simp [hrow]
          simp only [List.filter_cons, hkeep, if_true, List.map_cons]
          rw [ih rest hrest, hpdeq]

/-- **C5.** Every panel of the flattened sequence whose type is the literal
`"row"` — the synthetic panels built from RowPanels included — is excluded
from the render model and yields no rendered table row; every panel with
any other type appears, in flattened order, and the rendered document is
the header followed by exactly one table row per render-model panel. -/
theorem claim_C5 :
    ∀ (dash : Dashboard) (pds : List PanelData),
      buildPanels dash.GetPanels = .ok pds →
      pds.map (fun pd => (pd.title, pd.type)) =
        (dash.GetPanels.filter (fun p => p.type != "row")).map
          (fun p => (p.title, p.type)) ∧
      (∀ pd ∈ pds, pd.type ≠ "row") ∧
      renderTemplate (MarkdownData.mk dash.title dash.description pds) =
        mdHeader dash.title dash.description ++
          String.join (pds.map renderPanelRow) := by
  intro dash pds h
  have hshape := buildPanels_ok_shape dash.GetPanels pds h
  refine ⟨hshape, ?_, rfl⟩
  intro pd hpd
  have hmem : (pd.title, pd.type) ∈ pds.map (fun pd => (pd.title, pd.type)) :=
    List.mem_map.mpr ⟨pd, hpd, rfl⟩
  rw [hshape] at hmem
  obtain ⟨p, hp, heq⟩ := List.mem_map.mp hmem
  have hpne : (p.type != "row") = true := (List.mem_filter.mp hp).2
  have : pd.type = p.type := congrArg Prod.snd heq.symm
  rw [this]
  simpa using hpne

/-! Concrete fixture: a dashboard whose row panel carries one renderable
child. -/

def goodTarget : Target := { expr := "rate(foo[$__range])", datasource := dsProm }

def goodPanel : Panel :=
  { title := "P", description := "d", type := "graph", targets := [goodTarget] }

def goodRow : RowPanel :=
  { title := "R", description := "", type := "row", targets := [], panels := [goodPanel] }

def goodDashboard : Dashboard :=
  { title := "T", description := "D", links := [], panels := [goodRow] }

def goodPanelData : PanelData :=
  { title := "P", description := "d", type := "graph", metrics := ["foo"] }

/-- Witness for C5: on `goodDashboard` the render model keeps exactly the
one graph panel and drops the synthetic row panel. -/
theorem claim_C5_witness :
    [goodPanelData].map (fun pd => (pd.title, pd.type)) =
      (goodDashboard.GetPanels.filter (fun p => p.type != "row")).map
        (fun p => (p.title, p.type)) :=
  (claim_C5 goodDashboard [goodPanelData] rfl).1

/-! ## Claim C3 -/

theorem targetMetrics_error_shape {t : Target} {e : DocError}
    (h : targetMetrics t = .error e) : ∃ m, e = .parseError m := by
  rw [targetMetrics] at h
  cases hx : extractMetricFromExpression (replacePlaceholders t.expr) with
  | error m =>
    rw [hx] at h
    exact ⟨m, (Except.error.inj h).symm⟩
  | ok ms =>
    rw [hx] at h
    cases h

theorem collectPanelMetrics_error_shape :
    ∀ (ts : List Target) (e : DocError), collectPanelMetrics ts = .error e →
      ∃ m, e = .parseError m := by
  intro ts
  induction ts with
  | nil =>
    intro e h
    rw [collectPanelMetrics] at h
    cases h
  | cons t ts ih =>
    intro e h
    rw [collectPanelMetrics] at h
    cases htm : targetMetrics t with
    | error e' =>
      rw [htm] at h
      have heq : e' = e := Except.error.inj h
      obtain ⟨m, hm⟩ := targetMetrics_error_shape htm
      exact ⟨m, heq ▸ hm⟩
    | ok ms =>
      rw [htm] at h
      cases hrest : collectPanelMetrics ts with
      | error e2 =>
        rw [hrest] at h
        have heq : e2 = e := Except.error.inj h
        obtain ⟨m, hm⟩ := ih e2 hrest
        exact ⟨m, heq ▸ hm⟩
      | ok rest =>
        rw [hrest] at h
        cases h

theorem collectPanelMetrics_ok_targets :
    ∀ (ts : List Target) (ms : List String), collectPanelMetrics ts = .ok ms →
      ∀ t ∈ ts, ∃ v, targetMetrics t = .ok v := by
  intro ts
  induction ts with
  | nil =>
    intro ms _ t ht
    cases ht
  | cons t0 ts ih =>
    intro ms h t ht
    rw [collectPanelMetrics] at h
    cases htm : targetMetrics t0 with
    | error e =>
      rw [htm] at h
      cases h
    | ok v0 =>
      rw [htm] at h
      cases hrest : collectPanelMetrics ts with
      | error e =>
        rw [hrest] at h
        cases h
      | ok rest =>
        rcases List.mem_cons.mp ht with rfl | ht'
        · exact ⟨v0, htm⟩
        · exact ih rest hrest t ht'

theorem buildPanels_error_shape :
    ∀ (ps : List Panel) (e : DocError), buildPanels ps = .error e →
      ∃ m, e = .parseError m := by
  intro ps
  induction ps with
  | nil =>
    intro e h
    rw [buildPanels] at h
    cases h
  | cons p ps ih =>
    intro e h
    rw [buildPanels] at h
    by_cases hrow : p.type = "row"
    · rw [if_neg (fun hc => hc hrow)] at h
      exact ih e h
    · rw [if_pos hrow] at h
      cases hpd : buildPanelData p with
      | error e' =>
        rw [hpd] at h
        have heq : e' = e := Except.error.inj h
        rw [buildPanelData] at hpd
        cases hcm : collectPanelMetrics p.targets with
        | error e2 =>
          rw [hcm] at hpd
          have heq2 : e2 = e' := Except.error.inj hpd
          obtain ⟨m, hm⟩ := collectPanelMetrics_error_shape p.targets e2 hcm
          exact ⟨m, heq ▸ heq2 ▸ hm⟩
        | ok ms =>
          rw [hcm] at hpd
          cases hpd
      | ok pd =>
        rw [hpd] at h
        cases hrest : buildPanels ps with
        | error e2 =>
          rw [hrest] at h
          have heq : e2 = e := Except.error.inj h
          obtain ⟨m, hm⟩ := ih e2 hrest
          exact ⟨m, heq ▸ hm⟩
        | ok rest =>
          rw [hrest] at h
          cases h

theorem buildPanels_ok_targets :
    ∀ (ps : List Panel) (pds : List PanelData), buildPanels ps = .ok pds →
      ∀ p ∈ ps, p.type ≠ "row" → ∃ ms, collectPanelMetrics p.targets = .ok ms := by
  intro ps
  induction ps with
  | nil =>
    intro pds _ p hp
    cases hp
  | cons p0 ps ih =>
    intro pds h p hp hprow
    rw [buildPanels] at h
    by_cases hrow : p0.type = "row"
    · rw [if_neg (fun hc => hc hrow)] at h
      rcases List.mem_cons.mp hp with rfl | hp'
      · exact absurd hrow hprow
      · exact ih pds h p hp' hprow
    · rw [if_pos hrow] at h
      cases hpd : buildPanelData p0 with
      | error e =>
        rw [hpd] at h
        cases h
      | ok pd =>
        rw [hpd] at h
        cases hrest : buildPanels ps with
        | error e =>
          rw [hrest] at h
          cases h
        | ok rest =>
          rcases List.mem_cons.mp hp with rfl | hp'
          · exact (buildPanelData_ok hpd).imp (fun ms hms => hms.1)
          · exact ih rest hrest p hp' hprow

/-- **C3.** If any reachable target's query expression fails to parse, the
whole file fails: `CreateDocumentationFromFile` returns a parse error and
the output file holds no rendered content; in a batch, that file's error
appears inside the aggregate of `SafeMultierrorWait`, while every other
file's task result — and its written output — is exactly what processing
that file alone produces. -/
theorem claim_C3 :
    (∀ (w : World) (file outDir bs : String) (dash : Dashboard),
      w.readFile file = .ok bs →
      w.jsonUnmarshal bs = .ok dash →
      w.openFile (mdFileName file outDir) = .ok () →
      (∃ p ∈ dash.GetPanels, p.type ≠ "row" ∧ ∃ t ∈ p.targets, ∃ msg,
        extractMetricFromExpression (replacePlaceholders t.expr) = .error msg) →
      ∃ emsg, CreateDocumentationFromFile w file outDir =
        (.error (.parseError emsg), some (mdFileName file outDir, ""))) ∧
    (∀ (w : World) (files : List String) (outDir f : String) (e : DocError),
      f ∈ files →
      (CreateDocumentationFromFile w f outDir).1 = .error e →
      ∃ l, SafeMultierrorWait (some (taskErrors (runTasks w files outDir))) =
        some (MultiWaitError.aggregate l) ∧ e ∈ l) ∧
    (∀ (w : World) (files : List String) (outDir g : String) (o : String × String),
      g ∈ files →
      (CreateDocumentationFromFile w g outDir).2 = some o →
      o ∈ batchWrites (runTasks w files outDir)) := by
  refine ⟨?_, ?_, ?_⟩
  · intro w file outDir bs dash hread hjson hopen hbad
    obtain ⟨p, hpmem, hprow, t, htmem, msg, hterr⟩ := hbad
    cases hbp : buildPanels dash.GetPanels with
    | ok pds =>
      exfalso
      obtain ⟨ms, hms⟩ := buildPanels_ok_targets _ _ hbp p hpmem hprow
      obtain ⟨v, hv⟩ := collectPanelMetrics_ok_targets _ _ hms t htmem
      rw [targetMetrics, hterr] at hv
      cases hv
    | error e =>
      obtain ⟨m, hm⟩ := buildPanels_error_shape _ _ hbp
      subst hm
      refine ⟨m, ?_⟩
      simp [CreateDocumentationFromFile, hread, hjson, hopen, hbp]
  · intro w files outDir f e hf herr
    apply safeWait_mem_aggregate
    rw [taskErrors, runTasks, List.map_map]
    refine List.mem_map.mpr ⟨f, hf, ?_⟩
    simp only [Function.comp_apply]
    rw [herr]
  · intro w files outDir g o hg ho
    rw [batchWrites, runTasks]
    refine List.mem_filterMap.mpr ⟨CreateDocumentationFromFile w g outDir, ?_, ho⟩
    exact List.mem_map.mpr ⟨g, hg, rfl⟩

/-- Witness for C3: the `(((` expression fails the whole file, and in a
two-file batch the failure is visible inside the aggregate. -/
theorem claim_C3_witness :
    (∃ emsg, CreateDocumentationFromFile wParseErr "dash.json" "out" =
      (.error (.parseError emsg), some (mdFileName "dash.json" "out", ""))) ∧
    (∃ l, SafeMultierrorWait
        (some (taskErrors (runTasks wParseErr ["dash.json", "other.json"] "out"))) =
      some (MultiWaitError.aggregate l) ∧ DocError.parseError badExprMsg ∈ l) :=
  ⟨claim_C3.1 wParseErr "dash.json" "out" "raw" badDashboard rfl rfl rfl
      ⟨badPanel, by decide, by decide, badTarget, by decide, badExprMsg, rfl⟩,
    claim_C3.2.1 wParseErr ["dash.json", "other.json"] "out" "dash.json"
      (DocError.parseError badExprMsg) (by decide) rfl⟩

/-! ## Claim C4 -/

theorem collectPanelMetrics_of_forall₂ :
    ∀ {ts : List Target} {mss : List (List String)},
      List.Forall₂ (fun t ms => targetMetrics t = .ok ms) ts mss →
      collectPanelMetrics ts = .ok mss.flatten := by
  intro ts mss h
  induction h with
  | nil => rfl
  | cons ht _ ih =>
    rw [collectPanelMetrics, ht, ih]
    rfl

def tFoo : Target := { expr := "foo", datasource := dsProm }

def tBar : Target := { expr := "bar", datasource := dsProm }

/-- **C4.** A panel's rendered metric list concatenates, in target order, the
metrics extracted from each target's parsed expression in depth-first
pre-order, then deduplicates ONCE over the whole concatenation (first
occurrence wins), not per target; `sum(rate(foo[5m])) + bar` extracts
`["foo", "bar"]` in that order and a panel whose one target is `foo + foo`
renders `["foo"]`. -/
theorem claim_C4 :
    (∀ (ts : List Target) (mss : List (List String)),
      List.Forall₂ (fun t ms => targetMetrics t = .ok ms) ts mss →
      collectPanelMetrics ts = .ok mss.flatten) ∧
    (∀ (p : Panel) (pd : PanelData), buildPanelData p = .ok pd →
      ∃ ms, collectPanelMetrics p.targets = .ok ms ∧
        pd.metrics = GetUniqueElements ms) ∧
    extractMetricFromExpression "sum(rate(foo[5m])) + bar" = .ok ["foo", "bar"] ∧
    buildPanelData (Panel.mk "p" "" "graph" [Target.mk "foo + foo" dsProm]) =
      .ok (PanelData.mk "p" "" "graph" ["foo"]) ∧
    buildPanelData (Panel.mk "q" "" "graph"
        [Target.mk "foo" dsProm, Target.mk "foo" dsProm]) =
      .ok (PanelData.mk "q" "" "graph" ["foo"]) ∧
    GetUniqueElements ["foo"] ++ GetUniqueElements ["foo"] ≠ ["foo"] := by
  refine ⟨fun ts mss h => collectPanelMetrics_of_forall₂ h, ?_, rfl, rfl, rfl, by decide⟩
  intro p pd h
  obtain ⟨ms, hms, hpd⟩ := buildPanelData_ok h
  exact ⟨ms, hms, by rw [hpd]⟩

/-- Witness for C4: per-target extraction results concatenate in target
order. -/
theorem claim_C4_witness :
    collectPanelMetrics [tFoo, tBar] = .ok ([["foo"], ["bar"]].flatten) :=
  claim_C4.1 [tFoo, tBar] [["foo"], ["bar"]]
    (List.Forall₂.cons rfl (List.Forall₂.cons rfl List.Forall₂.nil))

/-! ## Claim C6 -/

theorem replaceChars_range (s : List Char) :
    replaceChars (rangeVar ++ s) = oneM ++ replaceChars s := by
  have hlen : (rangeVar ++ s).length = s.length + 7 + 1 := by
    simp only [List.length_append, rangeVar, List.length_cons, List.length_nil]
    omega
  have hne : rangeVar ++ s ≠ [] := by simp [rangeVar]
  rw [replaceChars, hlen,
    replaceChars_step (s.length + 7) (le_of_eq hlen) hne (findMatch_range s),
    replaceChars]
  exact congrArg (fun t => oneM ++ t)
    (replacerGo_fuel promRules promRules_patterns_ne_nil (s.length + 7)
      s.length s (by omega) (le_refl _))

theorem replaceChars_rateInterval (s : List Char) :
    replaceChars (rateIntervalVar ++ s) = oneM ++ replaceChars s := by
  have hlen : (rateIntervalVar ++ s).length = s.length + 15 + 1 := by
    simp only [List.length_append, rateIntervalVar, List.length_cons, List.length_nil]
    omega
  have hne : rateIntervalVar ++ s ≠ [] := by simp [rateIntervalVar]
  rw [replaceChars, hlen,
    replaceChars_step (s.length + 15) (le_of_eq hlen) hne (findMatch_rateInterval s),
    replaceChars]
  exact congrArg (fun t => oneM ++ t)
    (replacerGo_fuel promRules promRules_patterns_ne_nil (s.length + 15)
      s.length s (by omega) (le_refl _))

theorem replaceChars_interval (s : List Char) :
    replaceChars (intervalVar ++ s) = oneM ++ replaceChars s := by
  have hlen : (intervalVar ++ s).length = s.length + 8 + 1 := by
    simp only [List.length_append, intervalVar, List.length_cons, List.length_nil]
    omega
  have hne : intervalVar ++ s ≠ [] := by simp [intervalVar]
  rw [replaceChars, hlen,
    replaceChars_step (s.length + 8) (le_of_eq hlen) hne (findMatch_interval s),
    replaceChars]
  exact congrArg (fun t => oneM ++ t)
    (replacerGo_fuel promRules promRules_patterns_ne_nil (s.length + 8)
      s.length s (by omega) (le_refl _))

theorem replaceChars_skip (c : Char) (s : List Char)
    (h : findMatch promRules (c :: s) = none) :
    replaceChars (c :: s) = c :: replaceChars s := by
  show replacerGo promRules (c :: s).length (c :: s) = c :: replaceChars s
  rw [show (c :: s).length = s.length + 1 from rfl, replacerGo, h]
  rfl

/-- **C6.** Placeholder substitution is one simultaneous left-to-right pass:
wherever one of the literal substrings `$__range`, `$__rate_interval`,
`$interval` starts, it is replaced by the literal `1m` and scanning resumes
after it (the emitted replacement is never rescanned or re-substituted), and
positions where no placeholder starts are copied unchanged; consequently
`rate(foo[$__range])` is substituted to exactly `rate(foo[1m])`, parses
identically to it, and extracts `["foo"]`. -/
theorem claim_C6 :
    (∀ s : List Char,
      replaceChars (rangeVar ++ s) = oneM ++ replaceChars s ∧
      replaceChars (rateIntervalVar ++ s) = oneM ++ replaceChars s ∧
      replaceChars (intervalVar ++ s) = oneM ++ replaceChars s) ∧
    (∀ (c : Char) (s : List Char), findMatch promRules (c :: s) = none →
      replaceChars (c :: s) = c :: replaceChars s) ∧
    replacePlaceholders "rate(foo[$__range])" = "rate(foo[1m])" ∧
    extractMetricFromExpression (replacePlaceholders "rate(foo[$__range])") =
      extractMetricFromExpression "rate(foo[1m])" ∧
    extractMetricFromExpression "rate(foo[1m])" = .ok ["foo"] :=
  ⟨fun s => ⟨replaceChars_range s, replaceChars_rateInterval s,
      replaceChars_interval s⟩,
    replaceChars_skip, rfl, rfl, rfl⟩

/-- Witness for C6: a position where no placeholder starts is copied
unchanged and scanning continues to the right. -/
theorem claim_C6_witness :
    replaceChars ('x' :: "rate".data) = 'x' :: replaceChars "rate".data :=
  claim_C6.2.1 'x' "rate".data rfl
